import Mathlib

/-!
Shallow embedding of the SanyoCCB bit-banged CCB bus driver
(src/SanyoCCB.cpp, src/SanyoCCB.h).

Every Arduino platform call the driver makes (`pinMode`, `digitalWrite`,
`digitalRead`, `delayMicroseconds(CCB_DELAY)`) is recorded as one `Event` in a
trace, in program order.  The four pins are abstracted to their logical roles
(the `_do_pin`, `_cl_pin`, `_di_pin`, `_ce_pin` members).  `digitalRead` on the
DI pin is modelled by an input stream `ins : Nat → Bool` together with a
counter `k` of samples taken so far; each read consumes `ins k` and bumps `k`.
Bytes are `Nat` values; a C `byte` parameter truncates its argument mod 256.
`int8_t dataLength` is modelled as `Int` (theorems restrict it to the int8
range where the claims do).
-/

set_option maxRecDepth 8192

namespace SanyoCCB

/-- The four logical bus lines of the driver: `_do_pin` (data out), `_cl_pin`
(clock), `_di_pin` (data in) and `_ce_pin` (chip enable). -/
inductive Line where
  | out
  | clock
  | din
  | enable
deriving DecidableEq, Repr

/-- Arduino pin configuration used by `init()`: `OUTPUT` or `INPUT`. -/
inductive PinConf where
  | output
  | input
deriving DecidableEq, Repr

/-- One observable platform call made by the driver, in program order:
`pinMode`, `digitalWrite` (level as `Bool`, HIGH = `true`),
`digitalRead`, or `delayMicroseconds(CCB_DELAY)`. -/
inductive Event where
  | pinMode (l : Line) (c : PinConf)
  | digitalWrite (l : Line) (v : Bool)
  | digitalRead (l : Line)
  | delay
deriving DecidableEq, Repr

/-- Arduino `bitWrite(value, bit, bitvalue)` on a `byte` (uint8_t) variable:
`value |= (1 << bit)` when the bit is set, `value &= ~(1 << bit)` when
cleared.  On an 8-bit value with `bit < 8` the complement mask
`~(1 << bit) & 0xFF` is `255 ^^^ (1 <<< bit)`. -/
def bitWrite (value bit : Nat) (bitvalue : Bool) : Nat :=
  if bitvalue then value ||| (1 <<< bit) else value &&& (255 ^^^ (1 <<< bit))

/-- The body of one iteration of the `writeByte` loop (SanyoCCB.cpp:86-88):
drive DO to `bitRead(data, i)`, raise CL, delay, lower CL, delay. -/
def writeBitEvents (data i : Nat) : List Event :=
  [.digitalWrite .out (data.testBit i),
   .digitalWrite .clock true, .delay,
   .digitalWrite .clock false, .delay]

/-- `SanyoCCB::writeByte` (SanyoCCB.cpp:83-90): `for (int8_t i = 0; i <= 7; i++)`
emitting one bit per iteration, LSB first. -/
def writeByte (data : Nat) : List Event :=
  (List.range 8).flatMap (writeBitEvents data)

/-- The loop of `SanyoCCB::readByte` (SanyoCCB.cpp:100-104), structurally
recursing on the number of remaining iterations: with fuel `n + 1` the current
loop index is `i = n` (so fuel 8 starts at `i = 7` and counts down to `i = 0`).
Each iteration: raise CL, delay, `bitWrite(data, i, digitalRead(di))`,
lower CL, delay.  Returns (assembled byte, next sample index, trace). -/
def readByteAux (ins : Nat → Bool) (k : Nat) (data : Nat) :
    Nat → Nat × Nat × List Event
  | 0 => (data, k, [])
  | n + 1 =>
    let r := readByteAux ins (k + 1) (bitWrite data n (ins k)) n
    (r.1, r.2.1,
      [.digitalWrite .clock true, .delay, .digitalRead .din,
       .digitalWrite .clock false, .delay] ++ r.2.2)

/-- `SanyoCCB::readByte` (SanyoCCB.cpp:97-106): `byte data = 0;` then
`for (int8_t i = 7; i >= 0; i--)`, MSB first. -/
def readByte (ins : Nat → Bool) (k : Nat) : Nat × Nat × List Event :=
  readByteAux ins k 0 8

/-- The framed address byte of `SanyoCCB::ccb` (SanyoCCB.cpp:118):
`writeByte((address >> 4) | (address << 4))` — the `byte` parameter of
`writeByte` truncates the promoted-int expression mod 256. -/
def nibbleSwap (address : Nat) : Nat :=
  ((address >>> 4) ||| (address <<< 4)) % 256

/-- The `_CCB_SEND` branch loop of `SanyoCCB::ccb` (SanyoCCB.cpp:128-129):
`for (i = dataLength - 1; i >= 0; i--) writeByte(data[i]);` — structurally
recursing on the number of remaining iterations; with fuel `n + 1` the current
index is `i = n`, so fuel `sendIterations dataLength` walks the loop's start
value down to 0. -/
def ccbSendLoop (data : List Nat) : Nat → List Event
  | 0 => []
  | n + 1 => writeByte (data.getD n 0) ++ ccbSendLoop data n

/-- The `_CCB_RECEIVE` branch loop of `SanyoCCB::ccb` (SanyoCCB.cpp:135-136):
`for (i = 0; i < dataLength; i++) data[i] = readByte();` — `i` is the current
index, the last argument the number of remaining iterations.
Returns (updated buffer, next sample index, trace). -/
def ccbRecvLoop (ins : Nat → Bool) (k : Nat) (data : List Nat) (i : Nat) :
    Nat → List Nat × Nat × List Event
  | 0 => (data, k, [])
  | rem + 1 =>
    let r := readByte ins k
    let rest := ccbRecvLoop ins r.2.1 (data.set i r.1) (i + 1) rem
    (rest.1, rest.2.1, r.2.2 ++ rest.2.2)

/-- Conversion of an `int` value to `int8_t`: the value is reduced modulo 2^8
into [-128, 127].  This is the documented behavior of gcc (including avr-gcc,
the Arduino target) and mandated since C++20; it matters only for the SEND
loop initialization `i = dataLength - 1` of `ccb`, whose right-hand side is
computed as `int` and converted back to the `int8_t` counter `i`. -/
def wrap8 (x : Int) : Int := (x + 128) % 256 - 128

/-- Number of iterations of the SEND loop of `ccb`
(`for (i = dataLength - 1; i >= 0; i--)`, SanyoCCB.cpp:128): the `int8_t`
counter starts at the int8 conversion of `dataLength - 1` and the body runs
once per value of `i` from there down to 0 (zero iterations when the start is
negative; the in-loop decrement never leaves the int8 range). -/
def sendIterations (dataLength : Int) : Nat := (wrap8 (dataLength - 1) + 1).toNat

/-- `_CCB_SEND` (SanyoCCB.h:7). -/
def CCB_SEND : Nat := 0

/-- `_CCB_RECEIVE` (SanyoCCB.h:8). -/
def CCB_RECEIVE : Nat := 1

/-- Events of entering data transfer mode (SanyoCCB.cpp:121-122):
`digitalWrite(_cl_pin, LOW); digitalWrite(_ce_pin, HIGH); delay;`. -/
def enterEvs : List Event := [.digitalWrite .clock false, .digitalWrite .enable true, .delay]

/-- Events of leaving data transfer mode (SanyoCCB.cpp:140):
`digitalWrite(_ce_pin, LOW); delay;`. -/
def exitEvs : List Event := [.digitalWrite .enable false, .delay]

/-- `SanyoCCB::ccb` (SanyoCCB.cpp:113-141): send the nibble-swapped address,
enter data mode, run the branch selected by `mode` (the `switch` does nothing
for any other mode value), leave data mode.  The RECEIVE loop runs
`dataLength.toNat` iterations (`i < dataLength` fails immediately for
`dataLength ≤ 0`); the SEND loop runs `sendIterations dataLength` iterations
(its counter starts at the int8 conversion of `dataLength - 1`).
Returns (buffer after the call, next sample index, trace). -/
def ccb (address : Nat) (data : List Nat) (dataLength : Int) (mode : Nat)
    (ins : Nat → Bool) (k : Nat) : List Nat × Nat × List Event :=
  if mode = CCB_SEND then
    (data, k,
      writeByte (nibbleSwap address) ++
        (enterEvs ++
          ((ccbSendLoop data (sendIterations dataLength) ++ [.digitalWrite .out false]) ++ exitEvs)))
  else if mode = CCB_RECEIVE then
    let r := ccbRecvLoop ins k data 0 dataLength.toNat
    (r.1, r.2.1,
      writeByte (nibbleSwap address) ++ (enterEvs ++ (r.2.2 ++ exitEvs)))
  else
    (data, k, writeByte (nibbleSwap address) ++ (enterEvs ++ exitEvs))

/-- `SanyoCCB::init` (SanyoCCB.cpp:62-76), as its trace: configure DO/CL/CE
as outputs, DI as input with pull-up (`digitalWrite(_di_pin, HIGH)`), drive DO
and CL low, then cycle CE high-delay-low-delay. -/
def init : List Event :=
  [.pinMode .out .output, .pinMode .clock .output, .pinMode .enable .output,
   .pinMode .din .input,
   .digitalWrite .din true,
   .digitalWrite .out false, .digitalWrite .clock false,
   .digitalWrite .enable true, .delay,
   .digitalWrite .enable false, .delay]

/-- `SanyoCCB::write` (SanyoCCB.cpp:164-166). -/
def write (address : Nat) (data : List Nat) (dataLength : Int)
    (ins : Nat → Bool) (k : Nat) : List Nat × Nat × List Event :=
  ccb address data dataLength CCB_SEND ins k

/-- `SanyoCCB::read` (SanyoCCB.cpp:173-175). -/
def read (address : Nat) (data : List Nat) (dataLength : Int)
    (ins : Nat → Bool) (k : Nat) : List Nat × Nat × List Event :=
  ccb address data dataLength CCB_RECEIVE ins k

/-- Values taken by the `int8_t` counter `i` in the SEND loop
`for (i = dataLength - 1; i >= 0; i--)`, including the final value at which
the guard fails; the fuel `dataLength.toNat` bounds the iterations. -/
def countDown : Int → Nat → List Int
  | i, 0 => [i]
  | i, fuel + 1 => if 0 ≤ i then i :: countDown (i - 1) fuel else [i]

/-- Counter values of the SEND loop of `ccb` for a given `dataLength`: the
counter starts at the int8 conversion of `dataLength - 1`. -/
def sendLoopCounters (dataLength : Int) : List Int :=
  countDown (wrap8 (dataLength - 1)) (sendIterations dataLength)

/-- Values taken by the `int8_t` counter `i` in the RECEIVE loop
`for (i = 0; i < dataLength; i++)`, including the final value at which the
guard fails. -/
def countUp (dataLength : Int) : Int → Nat → List Int
  | i, 0 => [i]
  | i, fuel + 1 => if i < dataLength then i :: countUp dataLength (i + 1) fuel else [i]

/-- Counter values of the RECEIVE loop of `ccb` for a given `dataLength`. -/
def recvLoopCounters (dataLength : Int) : List Int :=
  countUp dataLength 0 dataLength.toNat

/-- The sequence of levels written to line `l` by a trace, in order. -/
def writesTo (l : Line) : List Event → List Bool
  | [] => []
  | Event.digitalWrite m v :: es => if m = l then v :: writesTo l es else writesTo l es
  | _ :: es => writesTo l es

/-- The number of `digitalRead` events in a trace. -/
def readCount : List Event → Nat
  | [] => 0
  | Event.digitalRead _ :: es => readCount es + 1
  | _ :: es => readCount es

/-- The `pinMode` configuration calls of a trace, in order. -/
def pinModes : List Event → List (Line × PinConf)
  | [] => []
  | Event.pinMode l c :: es => (l, c) :: pinModes es
  | _ :: es => pinModes es

/-! Helper lemmas about the trace extraction functions. -/

theorem writesTo_append (l : Line) (xs ys : List Event) :
    writesTo l (xs ++ ys) = writesTo l xs ++ writesTo l ys := by
  induction xs with
  | nil => rfl
  | cons e es ih =>
    cases e with
    | digitalWrite m v =>
      simp only [List.cons_append, writesTo, ih]
      split <;> simp [ih]
    | pinMode m c => simpa [writesTo] using ih
    | digitalRead m => simpa [writesTo] using ih
    | delay => simpa [writesTo] using ih

theorem readCount_append (xs ys : List Event) :
    readCount (xs ++ ys) = readCount xs + readCount ys := by
  induction xs with
  | nil => simp [readCount]
  | cons e es ih =>
    cases e with
    | pinMode m c => simp [readCount, ih]
    | digitalWrite m v => simp [readCount, ih]
    | digitalRead m => simp [readCount, ih]; omega
    | delay => simp [readCount, ih]

theorem readCount_writeByte (b : Nat) : readCount (writeByte b) = 0 := rfl

theorem writesTo_enable_writeByte (b : Nat) : writesTo .enable (writeByte b) = [] := rfl

theorem writesTo_clock_writeByte (b : Nat) :
    writesTo .clock (writeByte b) =
      [true, false, true, false, true, false, true, false,
       true, false, true, false, true, false, true, false] := rfl

theorem readByteAux_sample_index (ins : Nat → Bool) :
    ∀ (fuel k d : Nat), (readByteAux ins k d fuel).2.1 = k + fuel := by
  intro fuel
  induction fuel with
  | zero => intro k d; rfl
  | succ n ih =>
    intro k d
    simp only [readByteAux]
    rw [ih]
    omega

theorem readByte_sample_index (ins : Nat → Bool) (k : Nat) :
    (readByte ins k).2.1 = k + 8 := by
  simp [readByte, readByteAux_sample_index]

theorem readCount_readByte (ins : Nat → Bool) (k : Nat) :
    readCount (readByte ins k).2.2 = 8 := rfl

theorem writesTo_enable_readByte (ins : Nat → Bool) (k : Nat) :
    writesTo .enable (readByte ins k).2.2 = [] := rfl

theorem writesTo_clock_readByte (ins : Nat → Bool) (k : Nat) :
    writesTo .clock (readByte ins k).2.2 =
      [true, false, true, false, true, false, true, false,
       true, false, true, false, true, false, true, false] := rfl

theorem ccbSendLoop_eq_flatMap (data : List Nat) :
    ∀ n, n ≤ data.length → ccbSendLoop data n = ((data.take n).reverse).flatMap writeByte := by
  intro n
  induction n with
  | zero => intro _; simp [ccbSendLoop]
  | succ m ih =>
    intro h
    have hm : m < data.length := Nat.lt_of_lt_of_le (Nat.lt_succ_self m) h
    rw [ccbSendLoop, ih (Nat.le_of_lt hm), List.take_succ, List.getElem?_eq_getElem hm]
    rw [List.getD_eq_getElem?_getD, List.getElem?_eq_getElem hm]
    simp only [Option.toList_some, Option.getD_some, List.reverse_append, List.reverse_cons,
      List.reverse_nil, List.nil_append, List.flatMap_cons, List.flatMap_nil, List.append_nil,
      List.flatMap_append, List.cons_append]

theorem ccbRecvLoop_spec (ins : Nat → Bool) :
    ∀ (rem k i : Nat) (data : List Nat), i + rem ≤ data.length →
      (ccbRecvLoop ins k data i rem).2.1 = k + 8 * rem ∧
      (ccbRecvLoop ins k data i rem).1.length = data.length ∧
      ∀ j, (ccbRecvLoop ins k data i rem).1[j]? =
        if i ≤ j ∧ j < i + rem then some (readByte ins (k + 8 * (j - i))).1 else data[j]? := by
  intro rem
  induction rem with
  | zero =>
    intro k i data hlen
    refine ⟨by simp [ccbRecvLoop], by simp [ccbRecvLoop], ?_⟩
    intro j
    have hc : ¬(i ≤ j ∧ j < i + 0) := by omega
    simp only [ccbRecvLoop]
    rw [if_neg hc]
  | succ rem ih =>
    intro k i data hlen
    have hi : i < data.length := by omega
    have hk : (readByte ins k).2.1 = k + 8 := readByte_sample_index ins k
    have hlen2 : (i + 1) + rem ≤ (data.set i (readByte ins k).1).length := by
      simp [List.length_set]; omega
    obtain ⟨ih1, ih2, ih3⟩ :=
      ih ((readByte ins k).2.1) (i + 1) (data.set i (readByte ins k).1) hlen2
    refine ⟨?_, ?_, ?_⟩
    · simp only [ccbRecvLoop]
      rw [ih1, hk]
      omega
    · simp only [ccbRecvLoop]
      rw [ih2]
      simp
    · intro j
      simp only [ccbRecvLoop]
      rw [ih3 j]
      by_cases hji : j = i
      · subst hji
        rw [if_neg (by omega), if_pos (by omega), List.getElem?_set_self hi]
        simp
      · by_cases hjr : i + 1 ≤ j ∧ j < i + 1 + rem
        · rw [if_pos hjr, if_pos (by omega)]
          have harith : (readByte ins k).2.1 + 8 * (j - (i + 1)) = k + 8 * (j - i) := by
            rw [hk]; omega
          rw [harith]
        · rw [if_neg hjr, List.getElem?_set_ne (by omega : i ≠ j), if_neg (by omega)]

theorem ccbRecvLoop_sample_index (ins : Nat → Bool) :
    ∀ (rem k i : Nat) (data : List Nat), (ccbRecvLoop ins k data i rem).2.1 = k + 8 * rem := by
  intro rem
  induction rem with
  | zero => intro k i data; simp [ccbRecvLoop]
  | succ rem ih =>
    intro k i data
    simp only [ccbRecvLoop]
    rw [ih, readByte_sample_index]
    omega

theorem ccb_receive_sample_count (a : Nat) (data : List Nat) (n : Nat) (ins : Nat → Bool)
    (k : Nat) : (ccb a data (n : Int) CCB_RECEIVE ins k).2.1 = k + 8 * n := by
  have hccb : (ccb a data (n : Int) CCB_RECEIVE ins k).2.1 = (ccbRecvLoop ins k data 0 n).2.1 := by
    simp [ccb, CCB_SEND, CCB_RECEIVE]
  rw [hccb]
  exact ccbRecvLoop_sample_index ins n k 0 data

theorem readCount_ccbRecvLoop (ins : Nat → Bool) :
    ∀ (rem k i : Nat) (data : List Nat),
      readCount (ccbRecvLoop ins k data i rem).2.2 = 8 * rem := by
  intro rem
  induction rem with
  | zero => intro k i data; rfl
  | succ rem ih =>
    intro k i data
    simp only [ccbRecvLoop]
    rw [readCount_append, readCount_readByte, ih]
    omega

theorem writesTo_enable_ccbSendLoop (data : List Nat) :
    ∀ n, writesTo .enable (ccbSendLoop data n) = [] := by
  intro n
  induction n with
  | zero => rfl
  | succ m ih => simp [ccbSendLoop, writesTo_append, writesTo_enable_writeByte, ih]

theorem writesTo_enable_ccbRecvLoop (ins : Nat → Bool) :
    ∀ (rem k i : Nat) (data : List Nat),
      writesTo .enable (ccbRecvLoop ins k data i rem).2.2 = [] := by
  intro rem
  induction rem with
  | zero => intro k i data; rfl
  | succ rem ih =>
    intro k i data
    simp only [ccbRecvLoop]
    rw [writesTo_append, writesTo_enable_readByte, ih]
    rfl

theorem clockLast_ccbSendLoop (data : List Nat) :
    ∀ n, (writesTo .clock (ccbSendLoop data n)).getLast? = some false ∨
      writesTo .clock (ccbSendLoop data n) = [] := by
  intro n
  induction n with
  | zero => right; rfl
  | succ m ih =>
    left
    rw [ccbSendLoop, writesTo_append, List.getLast?_append]
    rcases ih with h | h
    · rw [h]; rfl
    · rw [h, writesTo_clock_writeByte]; rfl

theorem clockLast_ccbRecvLoop (ins : Nat → Bool) :
    ∀ (rem k i : Nat) (data : List Nat),
      (writesTo .clock (ccbRecvLoop ins k data i rem).2.2).getLast? = some false ∨
        writesTo .clock (ccbRecvLoop ins k data i rem).2.2 = [] := by
  intro rem
  induction rem with
  | zero => intro k i data; right; rfl
  | succ rem ih =>
    intro k i data
    left
    simp only [ccbRecvLoop]
    rw [writesTo_append, List.getLast?_append]
    rcases ih ((readByte ins k).2.1) (i + 1) (data.set i (readByte ins k).1) with h | h
    · rw [h]; rfl
    · rw [h, writesTo_clock_readByte]; rfl

/-- The ENABLE writes of a full transfer trace are exactly the high-then-low
pair of `enterEvs`/`exitEvs`, and the last CLOCK write is low, for any payload
section that writes ENABLE never and whose last CLOCK write (if any) is low. -/
theorem trace_framing_aux (x : Nat) (payload : List Event)
    (hpe : writesTo .enable payload = [])
    (hpc : (writesTo .clock payload).getLast? = some false ∨ writesTo .clock payload = []) :
    writesTo .enable (writeByte x ++ (enterEvs ++ (payload ++ exitEvs))) = [true, false] ∧
    (writesTo .clock (writeByte x ++ (enterEvs ++ (payload ++ exitEvs)))).getLast? = some false := by
  constructor
  · simp [writesTo_append, writesTo_enable_writeByte, hpe, enterEvs, exitEvs, writesTo]
  · have he : writesTo .clock enterEvs = [false] := rfl
    have hx : writesTo .clock exitEvs = [] := rfl
    rw [writesTo_append, writesTo_append, writesTo_append, writesTo_clock_writeByte,
      he, hx, List.append_nil, List.getLast?_append, List.getLast?_append]
    rcases hpc with h | h
    · rw [h]; rfl
    · rw [h]; rfl

theorem sendIterations_eq_toNat (dl : Int) (h1 : -128 < dl) (h2 : dl ≤ 127) :
    sendIterations dl = dl.toNat := by
  unfold sendIterations wrap8
  rw [Int.emod_eq_of_lt (by omega) (by omega)]
  omega

/-! Theorems for the claims. -/

/-- Claim C1: for every address byte `a < 256`, the transfer trace begins with
`writeByte` of the nibble-swapped address, the swapped byte equals
`(a >>> 4) ||| ((a <<< 4) &&& 0xFF)` (high and low nibbles exchanged,
truncated to 8 bits), and swapping twice returns `a`. -/
theorem ccb_address_nibbleSwap (a : Nat) (ha : a < 256) :
    (∀ (data : List Nat) (dl : Int) (mode : Nat) (ins : Nat → Bool) (k : Nat),
      ∃ rest, (ccb a data dl mode ins k).2.2 = writeByte (nibbleSwap a) ++ rest) ∧
    nibbleSwap a = (a >>> 4) ||| ((a <<< 4) &&& 0xFF) ∧
    nibbleSwap (nibbleSwap a) = a := by
  refine ⟨?_, ?_, ?_⟩
  · intro data dl mode ins k
    by_cases h0 : mode = CCB_SEND
    · exact ⟨enterEvs ++
          ((ccbSendLoop data (sendIterations dl) ++ [Event.digitalWrite .out false]) ++ exitEvs),
        by simp [ccb, h0]⟩
    · by_cases h1 : mode = CCB_RECEIVE
      · exact ⟨enterEvs ++ ((ccbRecvLoop ins k data 0 dl.toNat).2.2 ++ exitEvs),
          by simp [ccb, h0, h1, CCB_SEND, CCB_RECEIVE]⟩
      · exact ⟨enterEvs ++ exitEvs, by simp [ccb, h0, h1]⟩
  · revert ha; revert a; decide
  · revert ha; revert a; decide

/-- Witness for C1 at the concrete address 0xA5. -/
theorem ccb_address_nibbleSwap_witness :
    nibbleSwap 0xA5 = (0xA5 >>> 4) ||| ((0xA5 <<< 4) &&& 0xFF) ∧
    nibbleSwap (nibbleSwap 0xA5) = 0xA5 :=
  ⟨(ccb_address_nibbleSwap 0xA5 (by decide)).2.1,
   (ccb_address_nibbleSwap 0xA5 (by decide)).2.2⟩

/-- Claim C2: `writeByte b` serializes the 8 bits of `b` least-significant-bit
first: for each bit index 0..7 ascending it drives OUT to that bit, raises
CLOCK, holds one delay, lowers CLOCK, holds one delay — so the OUT writes are
the bits ascending and the CLOCK writes are exactly one rising and one falling
edge per bit. -/
theorem writeByte_lsb_first (b : Nat) :
    writeByte b =
      writeBitEvents b 0 ++ writeBitEvents b 1 ++ writeBitEvents b 2 ++ writeBitEvents b 3 ++
        writeBitEvents b 4 ++ writeBitEvents b 5 ++ writeBitEvents b 6 ++ writeBitEvents b 7 ∧
    writesTo .out (writeByte b) =
      [b.testBit 0, b.testBit 1, b.testBit 2, b.testBit 3,
       b.testBit 4, b.testBit 5, b.testBit 6, b.testBit 7] ∧
    writesTo .clock (writeByte b) =
      [true, false, true, false, true, false, true, false,
       true, false, true, false, true, false, true, false] ∧
    readCount (writeByte b) = 0 := by
  refine ⟨?_, rfl, rfl, rfl⟩
  simp [writeByte, writeBitEvents, List.range_succ]

/-- Claim C7: a transfer with `dataLength = 0` (any mode) performs the address
phase and the ENABLE pulse but no payload byte operations: the result is the
unchanged buffer, an unchanged sample counter, and a fixed trace that does not
depend on the buffer or the input line; the trace contains no `digitalRead`
beyond none at all outside the (read-free) address phase. -/
theorem ccb_length_zero (a : Nat) (data : List Nat) (mode : Nat)
    (ins : Nat → Bool) (k : Nat) :
    ccb a data 0 mode ins k =
      (data, k, writeByte (nibbleSwap a) ++
        (enterEvs ++
          ((if mode = CCB_SEND then [Event.digitalWrite .out false] else []) ++ exitEvs))) ∧
    readCount (ccb a data 0 mode ins k).2.2 = 0 := by
  have heq : ccb a data 0 mode ins k =
      (data, k, writeByte (nibbleSwap a) ++
        (enterEvs ++
          ((if mode = CCB_SEND then [Event.digitalWrite .out false] else []) ++ exitEvs))) := by
    by_cases h0 : mode = CCB_SEND
    · have hs0 : sendIterations 0 = 0 := rfl
      simp [ccb, h0, ccbSendLoop, hs0]
    · by_cases h1 : mode = CCB_RECEIVE
      · simp [ccb, h0, h1, ccbRecvLoop, CCB_SEND, CCB_RECEIVE]
      · simp [ccb, h0, h1]
  refine ⟨heq, ?_⟩
  rw [heq]
  by_cases h0 : mode = CCB_SEND <;>
    simp [h0, readCount_append, readCount_writeByte, enterEvs, exitEvs, readCount]

/-- Claim C9: `init` configures OUT, CLOCK, ENABLE as outputs and DI as a
pulled-high input (written HIGH), drives OUT low and CLOCK low, then pulses
ENABLE exactly once high-then-low with one delay after each of the two ENABLE
writes, reads nothing, and leaves the last written level of OUT, CLOCK and
ENABLE low. -/
theorem init_configures_and_idles :
    pinModes init = [(.out, .output), (.clock, .output), (.enable, .output), (.din, .input)] ∧
    writesTo .din init = [true] ∧
    writesTo .out init = [false] ∧
    writesTo .clock init = [false] ∧
    writesTo .enable init = [true, false] ∧
    init =
      [Event.pinMode .out .output, Event.pinMode .clock .output, Event.pinMode .enable .output,
       Event.pinMode .din .input, Event.digitalWrite .din true,
       Event.digitalWrite .out false, Event.digitalWrite .clock false] ++
        [Event.digitalWrite .enable true, Event.delay,
         Event.digitalWrite .enable false, Event.delay] ∧
    readCount init = 0 := by
  decide

/-- Counterexample to claim C10 as stated: at `dataLength = -128` (a negative
value accepted by the `int8_t` signature) a SEND transfer is NOT the length-0
transfer — the `int8_t` counter initialization `i = dataLength - 1` converts
-129 to 127, so the SEND loop runs 128 iterations. -/
theorem ccb_neg128_send_differs_from_zero :
    write 0 [] (-128) (fun _ => false) 0 ≠ write 0 [] 0 (fun _ => false) 0 := by
  decide

/-- Claim C10 amended: for every negative `dataLength` the RECEIVE payload loop
runs zero iterations (the transfer equals the length-0 transfer), and the SEND
payload loop likewise for every `dataLength` in (-128, 0); at the single value
`dataLength = -128` the SEND loop counter wraps to 127 and the transfer emits
128 payload bytes before driving OUT low. -/
theorem ccb_negative_length_like_zero (a : Nat) (data : List Nat) (dl : Int)
    (ins : Nat → Bool) (k : Nat) (hdl : dl < 0) :
    read a data dl ins k = read a data 0 ins k ∧
    (-128 < dl → write a data dl ins k = write a data 0 ins k) ∧
    (dl = -128 → write a data dl ins k =
      (data, k, writeByte (nibbleSwap a) ++
        (enterEvs ++ ((ccbSendLoop data 128 ++ [Event.digitalWrite .out false]) ++ exitEvs)))) := by
  have h : dl.toNat = 0 := Int.toNat_of_nonpos hdl.le
  refine ⟨by simp [read, ccb, h, CCB_SEND, CCB_RECEIVE], ?_, ?_⟩
  · intro hgt
    have hs : sendIterations dl = 0 := by
      rw [sendIterations_eq_toNat dl hgt (by omega)]
      exact h
    have hs0 : sendIterations 0 = 0 := rfl
    simp [write, ccb, hs, hs0]
  · intro he
    subst he
    have hs : sendIterations (-128) = 128 := rfl
    simp [write, ccb, hs, CCB_SEND]

/-- Witness for C10 (amended) at `dataLength = -5`. -/
theorem ccb_negative_length_like_zero_witness :
    read 3 [1, 2] (-5) (fun _ => false) 0 = read 3 [1, 2] 0 (fun _ => false) 0 ∧
    write 3 [1, 2] (-5) (fun _ => false) 0 = write 3 [1, 2] 0 (fun _ => false) 0 :=
  ⟨(ccb_negative_length_like_zero 3 [1, 2] (-5) (fun _ => false) 0 (by decide)).1,
   (ccb_negative_length_like_zero 3 [1, 2] (-5) (fun _ => false) 0 (by decide)).2.1 (by decide)⟩

/-- Claim C3: `readByte` assembles a byte most-significant-bit first from the
8 levels sampled on DI: the first sampled level becomes bit 7, the last bit 0,
each bit is sampled between a CLOCK rise (followed by one delay) and a CLOCK
fall (followed by one delay), the result is an 8-bit value, and exactly 8
samples are consumed. -/
theorem readByte_msb_first (v0 v1 v2 v3 v4 v5 v6 v7 : Bool) :
    (readByte (fun n => List.getD [v0, v1, v2, v3, v4, v5, v6, v7] n false) 0).1.testBit 7 = v0 ∧
    (readByte (fun n => List.getD [v0, v1, v2, v3, v4, v5, v6, v7] n false) 0).1.testBit 6 = v1 ∧
    (readByte (fun n => List.getD [v0, v1, v2, v3, v4, v5, v6, v7] n false) 0).1.testBit 5 = v2 ∧
    (readByte (fun n => List.getD [v0, v1, v2, v3, v4, v5, v6, v7] n false) 0).1.testBit 4 = v3 ∧
    (readByte (fun n => List.getD [v0, v1, v2, v3, v4, v5, v6, v7] n false) 0).1.testBit 3 = v4 ∧
    (readByte (fun n => List.getD [v0, v1, v2, v3, v4, v5, v6, v7] n false) 0).1.testBit 2 = v5 ∧
    (readByte (fun n => List.getD [v0, v1, v2, v3, v4, v5, v6, v7] n false) 0).1.testBit 1 = v6 ∧
    (readByte (fun n => List.getD [v0, v1, v2, v3, v4, v5, v6, v7] n false) 0).1.testBit 0 = v7 ∧
    (readByte (fun n => List.getD [v0, v1, v2, v3, v4, v5, v6, v7] n false) 0).1 < 256 ∧
    (readByte (fun n => List.getD [v0, v1, v2, v3, v4, v5, v6, v7] n false) 0).2.1 = 8 ∧
    (readByte (fun n => List.getD [v0, v1, v2, v3, v4, v5, v6, v7] n false) 0).2.2 =
      (List.range 8).flatMap (fun _ =>
        [Event.digitalWrite .clock true, Event.delay, Event.digitalRead .din,
         Event.digitalWrite .clock false, Event.delay]) := by
  revert v0 v1 v2 v3 v4 v5 v6 v7
  decide

/-- Claim C4: a SEND transfer of the whole buffer (length = buffer length,
at most 127) emits, after the address byte and the ENABLE rise, the buffer
bytes in reverse index order (last element first), then drives OUT low, then
lowers ENABLE; the buffer and the sample counter are untouched. -/
theorem ccb_send_reverse (a : Nat) (data : List Nat) (ins : Nat → Bool) (k : Nat)
    (h127 : data.length ≤ 127) :
    (ccb a data (data.length : Int) CCB_SEND ins k).2.2 =
      writeByte (nibbleSwap a) ++
        (enterEvs ++
          ((data.reverse.flatMap writeByte ++ [Event.digitalWrite .out false]) ++ exitEvs)) ∧
    (ccb a data (data.length : Int) CCB_SEND ins k).1 = data ∧
    (ccb a data (data.length : Int) CCB_SEND ins k).2.1 = k := by
  have hl : ccbSendLoop data data.length = data.reverse.flatMap writeByte := by
    rw [ccbSendLoop_eq_flatMap data data.length le_rfl, List.take_length]
  have hsi : sendIterations (data.length : Int) = data.length := by
    rw [sendIterations_eq_toNat _ (by omega) (by omega)]
    omega
  refine ⟨?_, by simp [ccb, CCB_SEND], by simp [ccb, CCB_SEND]⟩
  simp [ccb, CCB_SEND, hsi, hl]

/-- Witness for C4 with the two-byte buffer [0xAA, 0xBB]. -/
theorem ccb_send_reverse_witness :
    (ccb 5 [0xAA, 0xBB] ((([0xAA, 0xBB] : List Nat).length : Nat) : Int) CCB_SEND
      (fun _ => false) 0).1 = [0xAA, 0xBB] :=
  (ccb_send_reverse 5 [0xAA, 0xBB] (fun _ => false) 0 (by decide)).2.1

/-- Claim C5: a RECEIVE transfer of length `n ≤ 127` makes exactly `n`
`readByte` calls (8 samples each, so `8 * n` line reads in the whole trace and
the sample counter advances by `8 * n`) and stores the i-th received byte into
buffer position `i`, for `i = 0 .. n-1` ascending, leaving the length and the
positions at and beyond `n` unchanged. -/
theorem ccb_receive_forward (a : Nat) (data : List Nat) (n : Nat) (ins : Nat → Bool) (k : Nat)
    (hn : n ≤ data.length) (_hb : n ≤ 127) :
    (ccb a data (n : Int) CCB_RECEIVE ins k).2.1 = k + 8 * n ∧
    (ccb a data (n : Int) CCB_RECEIVE ins k).1.length = data.length ∧
    (∀ i, i < n →
      (ccb a data (n : Int) CCB_RECEIVE ins k).1[i]? = some (readByte ins (k + 8 * i)).1) ∧
    (∀ i, n ≤ i → (ccb a data (n : Int) CCB_RECEIVE ins k).1[i]? = data[i]?) ∧
    readCount (ccb a data (n : Int) CCB_RECEIVE ins k).2.2 = 8 * n := by
  have hccb : ccb a data (n : Int) CCB_RECEIVE ins k =
      ((ccbRecvLoop ins k data 0 n).1, (ccbRecvLoop ins k data 0 n).2.1,
        writeByte (nibbleSwap a) ++ (enterEvs ++ ((ccbRecvLoop ins k data 0 n).2.2 ++ exitEvs))) := by
    simp [ccb, CCB_SEND, CCB_RECEIVE]
  obtain ⟨h1, h2, h3⟩ := ccbRecvLoop_spec ins n k 0 data (by omega)
  refine ⟨?_, ?_, ?_, ?_, ?_⟩
  · rw [hccb]; exact h1
  · rw [hccb]; exact h2
  · intro i hi
    rw [hccb]
    have := h3 i
    rw [if_pos ⟨Nat.zero_le i, by omega⟩] at this
    simpa using this
  · intro i hi
    rw [hccb]
    have := h3 i
    rw [if_neg (by omega)] at this
    simpa using this
  · rw [hccb]
    have hr : readCount (ccbRecvLoop ins k data 0 n).2.2 = 8 * n :=
      readCount_ccbRecvLoop ins n k 0 data
    simp [readCount_append, readCount_writeByte, hr, enterEvs, exitEvs, readCount]

/-- Witness for C5 with buffer [7, 7], length 2 and an all-high input line. -/
theorem ccb_receive_forward_witness :
    (ccb 1 [7, 7] (((2 : Nat) : Nat) : Int) CCB_RECEIVE (fun _ => true) 0).2.1 = 0 + 8 * 2 :=
  (ccb_receive_forward 1 [7, 7] 2 (fun _ => true) 0 (by decide) (by decide)).1

/-- Claim C6: in every transfer the trace is the address byte (which never
writes ENABLE), then CLOCK driven low, ENABLE raised and one delay, then a
payload section that never writes ENABLE, then ENABLE lowered and one delay as
the very last events; so the ENABLE writes of the whole transfer are exactly
high-then-low around the payload, and the last CLOCK write of the transfer is
low (the bus ends idle). -/
theorem ccb_enable_phase (a : Nat) (data : List Nat) (dl : Int) (mode : Nat)
    (ins : Nat → Bool) (k : Nat) :
    ∃ payload : List Event,
      (ccb a data dl mode ins k).2.2 =
        writeByte (nibbleSwap a) ++ (enterEvs ++ (payload ++ exitEvs)) ∧
      writesTo .enable (writeByte (nibbleSwap a)) = [] ∧
      writesTo .enable payload = [] ∧
      writesTo .enable (ccb a data dl mode ins k).2.2 = [true, false] ∧
      (writesTo .clock (ccb a data dl mode ins k).2.2).getLast? = some false := by
  by_cases h0 : mode = CCB_SEND
  · refine ⟨ccbSendLoop data (sendIterations dl) ++ [Event.digitalWrite .out false], ?_, rfl, ?_, ?_, ?_⟩
    · simp [ccb, h0]
    · rw [writesTo_append, writesTo_enable_ccbSendLoop]; rfl
    · have he : writesTo .enable (ccbSendLoop data (sendIterations dl) ++ [Event.digitalWrite .out false]) = [] := by
        rw [writesTo_append, writesTo_enable_ccbSendLoop]; rfl
      have := (trace_framing_aux (nibbleSwap a)
        (ccbSendLoop data (sendIterations dl) ++ [Event.digitalWrite .out false]) he ?_).1
      · rw [show (ccb a data dl mode ins k).2.2 =
          writeByte (nibbleSwap a) ++
            (enterEvs ++ ((ccbSendLoop data (sendIterations dl) ++ [Event.digitalWrite .out false]) ++ exitEvs))
          from by simp [ccb, h0]]
        exact this
      · rw [writesTo_append, show writesTo .clock [Event.digitalWrite .out false] = [] from rfl,
          List.append_nil]
        exact clockLast_ccbSendLoop data (sendIterations dl)
    · have he : writesTo .enable (ccbSendLoop data (sendIterations dl) ++ [Event.digitalWrite .out false]) = [] := by
        rw [writesTo_append, writesTo_enable_ccbSendLoop]; rfl
      have := (trace_framing_aux (nibbleSwap a)
        (ccbSendLoop data (sendIterations dl) ++ [Event.digitalWrite .out false]) he ?_).2
      · rw [show (ccb a data dl mode ins k).2.2 =
          writeByte (nibbleSwap a) ++
            (enterEvs ++ ((ccbSendLoop data (sendIterations dl) ++ [Event.digitalWrite .out false]) ++ exitEvs))
          from by simp [ccb, h0]]
        exact this
      · rw [writesTo_append, show writesTo .clock [Event.digitalWrite .out false] = [] from rfl,
          List.append_nil]
        exact clockLast_ccbSendLoop data (sendIterations dl)
  · by_cases h1 : mode = CCB_RECEIVE
    · have htr : (ccb a data dl mode ins k).2.2 =
          writeByte (nibbleSwap a) ++
            (enterEvs ++ ((ccbRecvLoop ins k data 0 dl.toNat).2.2 ++ exitEvs)) := by
        simp [ccb, h0, h1, CCB_SEND, CCB_RECEIVE]
      refine ⟨(ccbRecvLoop ins k data 0 dl.toNat).2.2, htr, rfl,
        writesTo_enable_ccbRecvLoop ins dl.toNat k 0 data, ?_, ?_⟩
      · rw [htr]
        exact (trace_framing_aux (nibbleSwap a) _
          (writesTo_enable_ccbRecvLoop ins dl.toNat k 0 data)
          (clockLast_ccbRecvLoop ins dl.toNat k 0 data)).1
      · rw [htr]
        exact (trace_framing_aux (nibbleSwap a) _
          (writesTo_enable_ccbRecvLoop ins dl.toNat k 0 data)
          (clockLast_ccbRecvLoop ins dl.toNat k 0 data)).2
    · have htr : (ccb a data dl mode ins k).2.2 =
          writeByte (nibbleSwap a) ++ (enterEvs ++ ([] ++ exitEvs)) := by
        simp [ccb, h0, h1]
      refine ⟨[], htr, rfl, rfl, ?_, ?_⟩
      · rw [htr]
        exact (trace_framing_aux (nibbleSwap a) [] rfl (Or.inr rfl)).1
      · rw [htr]
        exact (trace_framing_aux (nibbleSwap a) [] rfl (Or.inr rfl)).2

/-- Claim C8: at the maximum length 127, the SEND loop counter takes the
values 126 down to 0 (with one final test at -1) and the RECEIVE loop counter
the values 0 up to 127, all within the int8_t range [-128, 127]; the transfer
performs exactly 127 byte operations (127 sent bytes for SEND, 127 received
bytes — 8·127 samples — for RECEIVE). -/
theorem ccb_max_length_no_overflow (a : Nat) :
    sendLoopCounters 127 = ((List.range 127).map fun j => (126 : Int) - (j : Int)) ++ [-1] ∧
    recvLoopCounters 127 = (List.range 128).map (fun j => (j : Int)) ∧
    (∀ c ∈ sendLoopCounters 127, -128 ≤ c ∧ c ≤ 127) ∧
    (∀ c ∈ recvLoopCounters 127, -128 ≤ c ∧ c ≤ 127) ∧
    (∀ (data : List Nat) (ins : Nat → Bool) (k : Nat), data.length = 127 →
      ccbSendLoop data 127 = data.reverse.flatMap writeByte ∧
      data.reverse.length = 127 ∧
      (ccb a data 127 CCB_RECEIVE ins k).2.1 = k + 8 * 127) := by
  refine ⟨by decide, by decide, by decide, by decide, ?_⟩
  intro data ins k h
  refine ⟨?_, by simp [h], ?_⟩
  · rw [← h, ccbSendLoop_eq_flatMap data data.length le_rfl, List.take_length]
  · have hcast : (127 : Int) = ((127 : Nat) : Int) := rfl
    rw [hcast]
    exact ccb_receive_sample_count a data 127 ins k

/-- Witness for C8 with a 127-byte all-zero buffer. -/
theorem ccb_max_length_no_overflow_witness :
    ccbSendLoop (List.replicate 127 0) 127 = (List.replicate 127 0).reverse.flatMap writeByte :=
  ((ccb_max_length_no_overflow 0).2.2.2.2 (List.replicate 127 0) (fun _ => false) 0 (by simp)).1

end SanyoCCB
